import Mathlib

/-!
Verification of the schema-to-type synthesis and deduplication engine of the
Magic-MCP repository (packages/generator `MCPGenerator` and
packages/parser `OpenAPIParser`).

The engine works on loosely-typed JSON-schema fragments (plain JS objects with
optional fields `type`, `enum`, `items`, `properties`, `required`, `nullable`,
`description`).  We embed those objects as the inductive family `Schema` below:
each optional field is an `Option` (JS `undefined` = `none`), `properties`
keeps the JS object's insertion order as an ordered list of (name, sub-schema)
pairs, and the recursive positions (`items`, `properties`) use the mutual
wrappers `ItemsF`/`PropsF`/`SProps` so that all functions are structurally
recursive and computable.

The deduplication key ("fingerprint") used by the code is `JSON.stringify` of
the schema object (parser.ts `extractComponentNames`, generator
`extractNestedSchema`, and the response-deduplication block of
`generateTypeScriptFiles`).  `stringifySchema` models it: present fields are
serialized in a fixed order (a JS object serializes its keys in insertion
order; the model fixes one such order, which is irrelevant to the claims), the
order of entries inside `properties` is preserved exactly as JSON.stringify
preserves it, and string escaping is omitted (all concrete inputs used below
are alphanumeric).
-/

namespace MagicMCP

mutual
inductive Schema : Type where
  | mk (ty : Option String) (enm : Option (List String)) (items : ItemsF)
       (props : PropsF) (req : Option (List String)) (nullb : Option Bool)
       (dsc : Option String) : Schema
  deriving DecidableEq
inductive ItemsF : Type where
  | none : ItemsF
  | some (s : Schema) : ItemsF
  deriving DecidableEq
inductive PropsF : Type where
  | none : PropsF
  | some (ps : SProps) : PropsF
  deriving DecidableEq
inductive SProps : Type where
  | nil : SProps
  | cons (name : String) (s : Schema) (rest : SProps) : SProps
  deriving DecidableEq
end

/-- Field accessor: the `type` field of a schema object. -/
def Schema.ty : Schema → Option String
  | .mk t _ _ _ _ _ _ => t

/-- Field accessor: the `enum` field of a schema object. -/
def Schema.enm : Schema → Option (List String)
  | .mk _ e _ _ _ _ _ => e

/-- Field accessor: the `items` field of a schema object. -/
def Schema.itemsF : Schema → ItemsF
  | .mk _ _ i _ _ _ _ => i

/-- Field accessor: the `properties` field of a schema object. -/
def Schema.propsF : Schema → PropsF
  | .mk _ _ _ p _ _ _ => p

/-- Field accessor: the `required` field of a schema object. -/
def Schema.req : Schema → Option (List String)
  | .mk _ _ _ _ r _ _ => r

/-- Field accessor: the `nullable` field of a schema object. -/
def Schema.nullb : Schema → Option Bool
  | .mk _ _ _ _ _ nb _ => nb

/-- Field accessor: the `description` field of a schema object. -/
def Schema.dsc : Schema → Option String
  | .mk _ _ _ _ _ _ d => d

/-- Length of an ordered property list (the number of keys of the JS
`properties` object, `Object.keys(schema.properties).length`). -/
def SProps.length : SProps → Nat
  | .nil => 0
  | .cons _ _ rest => rest.length + 1

/-- Ordered property list as a Lean list of (name, sub-schema) pairs. -/
def SProps.toList : SProps → List (String × Schema)
  | .nil => []
  | .cons n s rest => (n, s) :: rest.toList

/-- JS truthiness of the optional `nullable` field: only an explicit `true`
is truthy (`undefined` and `false` are falsy). -/
def truthyB : Option Bool → Bool
  | Option.some b => b
  | Option.none => false

/-- JS truthiness of an optional string: `undefined` and `""` are falsy. -/
def truthyS : Option String → Option String
  | Option.some v => if v = "" then Option.none else Option.some v
  | Option.none => Option.none

/-- Double-quoted JSON string (escaping omitted; the concrete strings used in
this development contain no characters that JSON.stringify would escape). -/
def qstr (s : String) : String := "\"" ++ s ++ "\""

mutual
/-- Model of `JSON.stringify(schema)`, the deduplication fingerprint computed
at `extractNestedSchema` (generator), `extractComponentNames` (parser) and the
response-deduplication block of `generateTypeScriptFiles`.  Present fields are
emitted in a fixed order; absent (`undefined`) fields are omitted, exactly as
JSON.stringify omits them; the entries of `properties` are emitted in
insertion order, which is the property that the order-insensitivity claim is
about. -/
def stringifySchema : Schema → String
  | .mk t e i p r nb d =>
      "\x7b" ++ String.intercalate ","
        ((match t with | Option.some v => ["\"type\":" ++ qstr v] | Option.none => []) ++
         (match e with
          | Option.some l => ["\"enum\":[" ++ String.intercalate "," (l.map qstr) ++ "]"]
          | Option.none => []) ++
         stringifyItems i ++
         stringifyPropsF p ++
         (match r with
          | Option.some l => ["\"required\":[" ++ String.intercalate "," (l.map qstr) ++ "]"]
          | Option.none => []) ++
         (match nb with
          | Option.some b => ["\"nullable\":" ++ (if b then "true" else "false")]
          | Option.none => []) ++
         (match d with | Option.some v => ["\"description\":" ++ qstr v] | Option.none => []))
      ++ "\x7d"
/-- Serialization of the optional `items` field. -/
def stringifyItems : ItemsF → List String
  | .none => []
  | .some s => ["\"items\":" ++ stringifySchema s]
/-- Serialization of the optional `properties` field. -/
def stringifyPropsF : PropsF → List String
  | .none => []
  | .some ps => ["\"properties\":\x7b" ++ stringifySProps ps ++ "\x7d"]
/-- Serialization of the entries of `properties`, in insertion order. -/
def stringifySProps : SProps → String
  | .nil => ""
  | .cons n s .nil => qstr n ++ ":" ++ stringifySchema s
  | .cons n s rest => qstr n ++ ":" ++ stringifySchema s ++ "," ++ stringifySProps rest
end

/-- The component name index built by the parser (`extractComponentNames`):
a JS object mapping fingerprint strings to author-given component names,
passed to the generator as `this.componentSchemas`. -/
abbrev CompIndex := List (String × String)

/-- Lookup in the component name index with JS truthiness: the generator's
guard `if (this.componentSchemas[schemaKey])` treats a missing key and an
empty-string name alike as "no component name". -/
def truthyLookup (comps : CompIndex) (k : String) : Option String :=
  truthyS (comps.lookup k)

/-- Mutable generator state: the Type Table `this.extractedSchemas`
(a JS `Map`, i.e. an insertion-ordered association list
fingerprint ↦ (schema, name)) and the fallback-name counter
`this.schemaCounter`.  `generate` resets both at the start of each run. -/
structure GenState where
  extractedSchemas : List (String × Schema × String)
  schemaCounter : Nat
  deriving DecidableEq

/-- The state at the start of a run (`this.extractedSchemas.clear();
this.schemaCounter = 0`). -/
def initState : GenState := ⟨[], 0⟩

/-- Lookup of a fingerprint in the Type Table (`this.extractedSchemas.get`,
`this.extractedSchemas.has`). -/
def lookupES (l : List (String × Schema × String)) (k : String) : Option (Schema × String) :=
  l.lookup k

/-- Model of `shouldExtractNestedSchema`: the code returns `false` when the
`properties` field is absent, and otherwise extracts exactly when the object
has at least 3 properties.  (The source consults neither the component name
index nor the Type Table here.) -/
def shouldExtractNestedSchema (s : Schema) : Bool :=
  match s.propsF with
  | .none => false
  | .some ps => 3 ≤ ps.length

/-- Model of `extractNestedSchema`: compute the fingerprint, prefer the
component name from the index (storing the entry if the fingerprint is new),
otherwise return the already-registered name, otherwise increment the counter
and register the schema under the fallback name `NestedType<counter>`. -/
def extractNestedSchema (comps : CompIndex) (s : Schema) (st : GenState) : String × GenState :=
  let schemaKey := stringifySchema s
  match truthyLookup comps schemaKey with
  | Option.some componentName =>
      if (lookupES st.extractedSchemas schemaKey).isSome then
        (componentName, st)
      else
        (componentName,
          { st with extractedSchemas := st.extractedSchemas ++ [(schemaKey, s, componentName)] })
  | Option.none =>
      match lookupES st.extractedSchemas schemaKey with
      | Option.some entry => (entry.2, st)
      | Option.none =>
          let c := st.schemaCounter + 1
          let name := "NestedType" ++ Nat.repr c
          (name, ⟨st.extractedSchemas ++ [(schemaKey, s, name)], c⟩)

mutual
/-- Model of `schemaToTypeScript`: recursive schema → TypeScript type
expression.  A truthy `enum` (any present array, even empty) takes precedence
and yields a union of quoted literals; otherwise the dispatch is on `type`
(`integer` and `number` both map to `number`); arrays recurse into `items`;
objects with a `properties` field are either hoisted through
`extractNestedSchema` (when `shouldExtractNestedSchema` holds) or inlined;
a truthy `nullable` appends ` | null`.  Extraction mutates the generator
state, so the model threads `GenState`. -/
def schemaToTypeScript (comps : CompIndex) : Schema → GenState → String × GenState
  | .mk t e i p r nb d, st =>
    let r : String × GenState :=
      match e with
      | Option.some l =>
          (String.intercalate " | " (l.map (fun v => "\x27" ++ v ++ "\x27")), st)
      | Option.none =>
        match t with
        | Option.some "string" => ("string", st)
        | Option.some "integer" => ("number", st)
        | Option.some "number" => ("number", st)
        | Option.some "boolean" => ("boolean", st)
        | Option.some "array" =>
            match i with
            | .some it =>
                let ri := schemaToTypeScript comps it st
                (ri.1 ++ "[]", ri.2)
            | .none => ("unknown" ++ "[]", st)
        | Option.some "object" =>
            match p with
            | .some ps =>
                if shouldExtractNestedSchema (Schema.mk t e i p r nb d) then
                  extractNestedSchema comps (Schema.mk t e i p r nb d) st
                else
                  let rp := tsPropList comps ps st
                  ("\x7b " ++ String.intercalate "; " rp.1 ++ " \x7d", rp.2)
            | .none => ("Record<string, unknown>", st)
        | _ => ("unknown", st)
    (if truthyB nb then r.1 ++ " | null" else r.1, r.2)
/-- The inline-object branch of `schemaToTypeScript`: synthesize
`name: type` fragments for each property in insertion order, threading the
state through the recursive calls. -/
def tsPropList (comps : CompIndex) : SProps → GenState → List String × GenState
  | .nil, st => ([], st)
  | .cons n s rest, st =>
      let rh := schemaToTypeScript comps s st
      let rt := tsPropList comps rest rh.2
      ((n ++ ": " ++ rh.1) :: rt.1, rt.2)
end

/-- Model of `schemaToZodType`: recursive schema → Zod validator expression,
mirroring `schemaToTypeScript`.  A truthy `enum` yields `enum([...])`; arrays
whose `items` is an object with a `properties` field passing
`shouldExtractNestedSchema` are hoisted (`array(<Name>Schema)`), other arrays
recurse with a `z.` prefix; objects passing the extraction test yield
`<Name>Schema`, other objects degrade to `record(z.unknown())`; a truthy
`nullable` appends `.nullable()`. -/
def schemaToZodType (comps : CompIndex) : Schema → GenState → String × GenState
  | .mk t e i p r nb d, st =>
    let r : String × GenState :=
      match e with
      | Option.some l =>
          ("enum([" ++ String.intercalate ", " (l.map (fun v => "\x27" ++ v ++ "\x27")) ++ "])",
           st)
      | Option.none =>
        match t with
        | Option.some "string" => ("string()", st)
        | Option.some "integer" => ("number()", st)
        | Option.some "number" => ("number()", st)
        | Option.some "boolean" => ("boolean()", st)
        | Option.some "array" =>
            match i with
            | .some it =>
                if it.ty = Option.some "object" ∧ it.propsF ≠ PropsF.none
                    ∧ shouldExtractNestedSchema it = true then
                  let re := extractNestedSchema comps it st
                  ("array(" ++ re.1 ++ "Schema)", re.2)
                else
                  let ri := schemaToZodType comps it st
                  ("array(z." ++ ri.1 ++ ")", ri.2)
            | .none => ("array(z.unknown())", st)
        | Option.some "object" =>
            match p with
            | .some _ =>
                if shouldExtractNestedSchema (Schema.mk t e i p r nb d) then
                  let re := extractNestedSchema comps (Schema.mk t e i p r nb d) st
                  (re.1 ++ "Schema", re.2)
                else
                  ("record(z.unknown())", st)
            | .none => ("record(z.unknown())", st)
        | _ => ("unknown()", st)
    (if truthyB nb then r.1 ++ ".nullable()" else r.1, r.2)

/-- The body of the property loop of `generateInterface`: the optionality
marker is `'?'` exactly when the property name is missing from `required` or
the property schema has a truthy `nullable`; a truthy `description` adds a
doc-comment line above the property. -/
def interfacePropLine (comps : CompIndex) (indentStr : String) (required : List String)
    (n : String) (p : Schema) (st : GenState) : String × GenState :=
  let optionalMark := if (!(required.contains n)) || truthyB p.nullb then "?" else ""
  let rt := schemaToTypeScript comps p st
  let descPart :=
    match truthyS p.dsc with
    | Option.some d => indentStr ++ "  /** " ++ d ++ " */\n"
    | Option.none => ""
  (descPart ++ indentStr ++ "  " ++ n ++ optionalMark ++ ": " ++ rt.1 ++ ";\n", rt.2)

/-- The property loop of `generateInterface`, in insertion order. -/
def interfaceProps (comps : CompIndex) (indentStr : String) (required : List String) :
    SProps → GenState → String × GenState
  | .nil, st => ("", st)
  | .cons n p rest, st =>
      let rh := interfacePropLine comps indentStr required n p st
      let rt := interfaceProps comps indentStr required rest rh.2
      (rh.1 ++ rt.1, rt.2)

/-- Model of `generateInterface`: an object schema with a `properties` field
becomes an `export interface` declaration, an array schema with an `items`
field becomes an `export type ... = ...[]` alias, and anything else yields the
empty string.  `required` defaults to `[]` when absent. -/
def generateInterface (comps : CompIndex) (name : String) (s : Schema) (indent : Nat)
    (st : GenState) : String × GenState :=
  let indentStr := String.join (List.replicate indent "  ")
  match s with
  | .mk t _ i p r _ _ =>
    match t, p with
    | Option.some "object", .some ps =>
        let required := r.getD []
        let rb := interfaceProps comps indentStr required ps st
        (indentStr ++ "export interface " ++ name ++ " \x7b\n" ++ rb.1 ++ indentStr ++ "\x7d\n",
         rb.2)
    | _, _ =>
      match t, i with
      | Option.some "array", .some it =>
          let ri := schemaToTypeScript comps it st
          (indentStr ++ "export type " ++ name ++ " = " ++ ri.1 ++ "[];\n", ri.2)
      | _, _ => ("", st)

/-- The body of the property loop of `generateZodSchema`: `.optional()` is
appended exactly when the property name is missing from `required`, and a
truthy `description` appends `.describe('...')` with apostrophes escaped. -/
def zodPropLine (comps : CompIndex) (required : List String) (n : String) (p : Schema)
    (st : GenState) : String × GenState :=
  let rz := schemaToZodType comps p st
  let isRequired := required.contains n
  let optionalPart := if isRequired then "" else ".optional()"
  let describePart :=
    match truthyS p.dsc with
    | Option.some d => ".describe(\x27" ++ (d.replace "\x27" "\\\x27") ++ "\x27)"
    | Option.none => ""
  ("  " ++ n ++ ": z." ++ rz.1 ++ optionalPart ++ describePart ++ ",", rz.2)

/-- The property loop of `generateZodSchema`, collecting one line per
property in insertion order. -/
def zodProps (comps : CompIndex) (required : List String) :
    SProps → GenState → List String × GenState
  | .nil, st => ([], st)
  | .cons n p rest, st =>
      let rh := zodPropLine comps required n p st
      let rt := zodProps comps required rest rh.2
      (rh.1 :: rt.1, rt.2)

/-- Model of `generateZodSchema`: an object schema with a `properties` field
becomes an `export const <name>Schema = z.object({...})` declaration, an array
schema with an `items` field becomes `export const <name>Schema =
z.array(z....)`, and anything else yields the empty string. -/
def generateZodSchema (comps : CompIndex) (name : String) (s : Schema) (st : GenState) :
    String × GenState :=
  match s with
  | .mk t _ i p r _ _ =>
    match t, p with
    | Option.some "object", .some ps =>
        let required := r.getD []
        let rl := zodProps comps required ps st
        ("export const " ++ name ++ "Schema = z.object(\x7b\n" ++
           String.intercalate "\n" rl.1 ++ "\n\x7d);", rl.2)
    | _, _ =>
      match t, i with
      | Option.some "array", .some it =>
          let ri := schemaToZodType comps it st
          ("export const " ++ name ++ "Schema = z.array(z." ++ ri.1 ++ ");", ri.2)
      | _, _ => ("", st)

/-- Per-operation input of the response-deduplication block of
`generateTypeScriptFiles`: the default response type name derived from the
operation (`getResponseTypeName`) and the operation's response schema, when
present. -/
structure ToolResp where
  responseTypeName : String
  responseSchema : Option Schema
  deriving DecidableEq

/-- Model of building `responseSchemaMap`: operations are folded in order;
an operation with no response schema is skipped; otherwise its default name
is appended to the group of its response fingerprint, creating the group on
first sight (JS `Map` insertion order). -/
def addResp (m : List (String × List String × Schema)) (key : String) (nm : String)
    (s : Schema) : List (String × List String × Schema) :=
  if (m.lookup key).isSome then
    m.map (fun e => if e.1 = key then (e.1, e.2.1 ++ [nm], e.2.2) else e)
  else
    m ++ [(key, [nm], s)]

/-- Folding all operations into `responseSchemaMap`. -/
def buildRespMap : List ToolResp → List (String × List String × Schema) →
    List (String × List String × Schema)
  | [], m => m
  | t :: ts, m =>
      match t.responseSchema with
      | Option.some s => buildRespMap ts (addResp m (stringifySchema s) t.responseTypeName s)
      | Option.none => buildRespMap ts m

/-- The intermediate values computed for one group of the response
deduplication block (source locals `componentName`, `canonicalName`,
`alreadyExtracted`, `interfaceCode`, `extractedName`, `referenceName`,
`namesToAlias`, `aliases`). -/
structure RespOut where
  canonicalName : String
  alreadyExtracted : Bool
  interfaceCode : String
  referenceName : String
  aliasLines : List String
  combined : String
  state : GenState

/-- Model of the per-group body of the response deduplication block of
`generateTypeScriptFiles`: prefer the component name for the canonical name,
skip the structural declaration when the fingerprint is already in the Type
Table, reference the Type Table name when present, and alias every remaining
name to the reference name (`export type <alias> = <referenceName>;`). -/
def responseGroup (comps : CompIndex) (names : List String) (schema : Schema)
    (st : GenState) : RespOut :=
  let schemaKey := stringifySchema schema
  let componentName := truthyLookup comps schemaKey
  let canonicalName :=
    match componentName with
    | Option.some c => c
    | Option.none => names.headD ""
  let alreadyExtracted := (lookupES st.extractedSchemas schemaKey).isSome
  let ric :=
    if alreadyExtracted then (("", st) : String × GenState)
    else generateInterface comps canonicalName schema 0 st
  let extractedName : Option String :=
    if alreadyExtracted then (lookupES ric.2.extractedSchemas schemaKey).map (fun e => e.2)
    else Option.none
  let referenceName := extractedName.getD canonicalName
  let namesToAlias :=
    if alreadyExtracted then names
    else
      match componentName with
      | Option.some _ => names
      | Option.none => names.drop 1
  let aliasLines :=
    (namesToAlias.filter (fun nm => nm ≠ referenceName)).map
      (fun al => "export type " ++ al ++ " = " ++ referenceName ++ ";")
  let aliases := String.intercalate "\n" aliasLines
  let combined := String.intercalate "\n" (([ric.1, aliases]).filter (fun x => x ≠ ""))
  ⟨canonicalName, alreadyExtracted, ric.1, referenceName, aliasLines, combined, ric.2⟩

/-- The whole `responseInterfaces` computation: groups processed in insertion
order, each producing its combined string, empty results dropped, joined by
blank lines. -/
def responsePass (comps : CompIndex) : List (String × List String × Schema) → GenState →
    List String × GenState
  | [], st => ([], st)
  | (_, names, s) :: gs, st =>
      let out := responseGroup comps names s st
      let rt := responsePass comps gs out.state
      (out.combined :: rt.1, rt.2)

/-- The `nestedInterfaces` computation: one `generateInterface` per Type
Table entry, over a snapshot of the table taken before the loop
(`Array.from(this.extractedSchemas.values())`). -/
def nestedInterfaceDecls (comps : CompIndex) :
    List (String × Schema × String) → GenState → List String × GenState
  | [], st => ([], st)
  | (_, s, name) :: es, st =>
      let rh := generateInterface comps name s 0 st
      let rt := nestedInterfaceDecls comps es rh.2
      (rh.1 :: rt.1, rt.2)

/-- The `nestedZodSchemas` computation: one `generateZodSchema` per Type
Table entry, over a snapshot of the table. -/
def nestedZodDecls (comps : CompIndex) :
    List (String × Schema × String) → GenState → List String × GenState
  | [], st => ([], st)
  | (_, s, name) :: es, st =>
      let rh := generateZodSchema comps name s st
      let rt := nestedZodDecls comps es rh.2
      (rh.1 :: rt.1, rt.2)

/-- JS object assignment `m[k] = v`: overwrite the value when the key exists,
append the pair otherwise (insertion order of a JS object). -/
def objAssign (m : CompIndex) (k v : String) : CompIndex :=
  if (m.lookup k).isSome then m.map (fun e => if e.1 = k then (k, v) else e)
  else m ++ [(k, v)]

/-- Model of the parser's `extractComponentNames`: walk the specification's
named-schema registry in order and record `JSON.stringify(schema) ↦ name` by
JS object assignment (so a later registry entry with the same fingerprint
overwrites an earlier one).  The source skips entries whose stringification
throws (cyclic references); inductive `Schema` values always stringify, so no
skip branch is reachable in the model. -/
def extractComponentNames : List (String × Schema) → CompIndex → CompIndex
  | [], m => m
  | (name, s) :: rest, m => extractComponentNames rest (objAssign m (stringifySchema s) name)

/-! ### Association-list helpers -/

theorem lookup_append {β : Type} (l1 l2 : List (String × β)) (k : String) :
    (l1 ++ l2).lookup k =
      match l1.lookup k with
      | Option.some v => Option.some v
      | Option.none => l2.lookup k := by
  induction l1 with
  | nil => simp
  | cons e es ih =>
      obtain ⟨k', v⟩ := e
      cases hbeq : k == k' <;>
        simp [List.cons_append, List.lookup_cons, hbeq, ih]

theorem lookup_none_iff {β : Type} (l : List (String × β)) (k : String) :
    l.lookup k = Option.none ↔ ∀ p ∈ l, p.1 ≠ k := by
  induction l with
  | nil => simp
  | cons e es ih =>
      obtain ⟨k', v⟩ := e
      cases hbeq : k == k' with
      | true =>
          have hk : k = k' := by simpa using hbeq
          subst hk
          simp [List.lookup_cons, hbeq]
      | false =>
          have hk : ¬ k = k' := by simpa using hbeq
          simp only [List.lookup_cons, hbeq, List.mem_cons, ih]
          constructor
          · rintro ha p (rfl | hp)
            · exact fun hc => hk hc.symm
            · exact ha p hp
          · intro ha p hp
            exact ha p (Or.inr hp)

theorem countKey_of_lookup_none {β : Type} (l : List (String × β)) (k : String)
    (h : l.lookup k = Option.none) : l.countP (fun e => e.1 == k) = 0 := by
  rw [lookup_none_iff] at h
  induction l with
  | nil => simp
  | cons e es ih =>
      rw [List.countP_cons]
      have h1 : e.1 ≠ k := h e (List.mem_cons_self e es)
      have hbeq : (e.1 == k) = false := by simpa using h1
      simp only [hbeq, ite_false, if_neg, Nat.add_zero, cond_false]
      exact ih (fun p hp => h p (List.mem_cons_of_mem e hp))

theorem not_mem_fst_of_lookup_none {β : Type} (l : List (String × β)) (k : String)
    (h : l.lookup k = Option.none) : k ∉ l.map Prod.fst := by
  rw [lookup_none_iff] at h
  intro hk
  obtain ⟨p, hp, hpk⟩ := List.mem_map.mp hk
  exact h p hp hpk

theorem countKey_of_nodup {β : Type} (l : List (String × β)) (k : String)
    (hnd : (l.map Prod.fst).Nodup) (h : (l.lookup k).isSome = true) :
    l.countP (fun e => e.1 == k) = 1 := by
  induction l with
  | nil => simp at h
  | cons e es ih =>
      obtain ⟨k', v⟩ := e
      simp only [List.map_cons, List.nodup_cons] at hnd
      cases hbeq : k == k' with
      | true =>
          have hk : k = k' := by simpa using hbeq
          subst hk
          rw [List.countP_cons]
          have hnone : es.lookup k = Option.none := by
            rw [lookup_none_iff]
            intro p hp hpk
            exact hnd.1 (List.mem_map.mpr ⟨p, hp, hpk⟩)
          have h0 := countKey_of_lookup_none es k hnone
          simp [h0]
      | false =>
          have hk : ¬ k = k' := by simpa using hbeq
          rw [List.lookup_cons, hbeq] at h
          rw [List.countP_cons]
          have hbeq' : ((k', v).1 == k) = false := by
            simpa using fun hc => hk hc.symm
          simp only [hbeq', ite_false, if_neg, Nat.add_zero, cond_false]
          exact ih hnd.2 h

/-! ### C2 — idempotent registration per fingerprint -/

/-- The keys of the Type Table are pairwise distinct.  This holds along every
run: entries are only ever appended after a failed lookup of their key. -/
def keysNodup (st : GenState) : Prop := (st.extractedSchemas.map Prod.fst).Nodup

/-- C2: registration in the Type Table is idempotent per fingerprint: for two
schemas with equal fingerprints, a second `extractNestedSchema` call returns
the same name as the first, leaves the whole state (and hence the entry
created by the first call) untouched, and the table holds exactly one entry
for that fingerprint. -/
theorem register_idempotent_per_fingerprint (comps : CompIndex) (s1 s2 : Schema)
    (st : GenState) (hfp : stringifySchema s1 = stringifySchema s2) (hnd : keysNodup st) :
    (extractNestedSchema comps s2 (extractNestedSchema comps s1 st).2).1
        = (extractNestedSchema comps s1 st).1 ∧
    (extractNestedSchema comps s2 (extractNestedSchema comps s1 st).2).2
        = (extractNestedSchema comps s1 st).2 ∧
    (extractNestedSchema comps s1 st).2.extractedSchemas.countP
        (fun e => e.1 == stringifySchema s1) = 1 ∧
    keysNodup (extractNestedSchema comps s1 st).2 := by
  have hkey : stringifySchema s2 = stringifySchema s1 := hfp.symm
  have appendKeep : ∀ (nm : String) (sc : Schema),
      lookupES st.extractedSchemas (stringifySchema s1) = Option.none →
      lookupES (st.extractedSchemas ++ [(stringifySchema s1, sc, nm)])
          (stringifySchema s1) = Option.some (sc, nm) := by
    intro nm sc h2
    simp only [lookupES] at h2 ⊢
    rw [lookup_append, h2]
    simp [List.lookup_cons]
  have appendCount : ∀ (nm : String) (sc : Schema),
      lookupES st.extractedSchemas (stringifySchema s1) = Option.none →
      (st.extractedSchemas ++ [(stringifySchema s1, sc, nm)]).countP
          (fun e => e.1 == stringifySchema s1) = 1 := by
    intro nm sc h2
    rw [List.countP_append, countKey_of_lookup_none _ _ h2]
    simp
  have appendNodup : ∀ (nm : String) (sc : Schema),
      lookupES st.extractedSchemas (stringifySchema s1) = Option.none →
      ((st.extractedSchemas ++ [(stringifySchema s1, sc, nm)]).map Prod.fst).Nodup := by
    intro nm sc h2
    simp only [List.map_append, List.map_cons, List.map_nil]
    rw [List.nodup_append]
    refine ⟨hnd, List.nodup_singleton _, ?_⟩
    intro a ha hb
    simp only [List.mem_singleton] at hb
    subst hb
    exact not_mem_fst_of_lookup_none _ _ h2 ha
  cases h1 : truthyLookup comps (stringifySchema s1) with
  | some c =>
      cases h2 : lookupES st.extractedSchemas (stringifySchema s1) with
      | some entry =>
          have h2s : (lookupES st.extractedSchemas (stringifySchema s1)).isSome = true := by
            simp [h2]
          have e1 : extractNestedSchema comps s1 st = (c, st) := by
            simp [extractNestedSchema, h1, h2]
          rw [e1]
          have e2 : extractNestedSchema comps s2 st = (c, st) := by
            simp [extractNestedSchema, hkey, h1, h2]
          rw [e2]
          exact ⟨rfl, rfl, countKey_of_nodup _ _ hnd h2s, hnd⟩
      | none =>
          have e1 : extractNestedSchema comps s1 st =
              (c, ⟨st.extractedSchemas ++ [(stringifySchema s1, s1, c)], st.schemaCounter⟩) := by
            simp [extractNestedSchema, h1, h2]
          rw [e1]
          have e2 : extractNestedSchema comps s2
              (⟨st.extractedSchemas ++ [(stringifySchema s1, s1, c)], st.schemaCounter⟩ :
                GenState) =
              (c, ⟨st.extractedSchemas ++ [(stringifySchema s1, s1, c)], st.schemaCounter⟩) := by
            simp [extractNestedSchema, hkey, h1, appendKeep c s1 h2]
          rw [e2]
          exact ⟨rfl, rfl, appendCount c s1 h2, appendNodup c s1 h2⟩
  | none =>
      cases h2 : lookupES st.extractedSchemas (stringifySchema s1) with
      | some entry =>
          have h2s : (lookupES st.extractedSchemas (stringifySchema s1)).isSome = true := by
            simp [h2]
          have e1 : extractNestedSchema comps s1 st = (entry.2, st) := by
            simp [extractNestedSchema, h1, h2]
          rw [e1]
          have e2 : extractNestedSchema comps s2 st = (entry.2, st) := by
            simp [extractNestedSchema, hkey, h1, h2]
          rw [e2]
          exact ⟨rfl, rfl, countKey_of_nodup _ _ hnd h2s, hnd⟩
      | none =>
          have e1 : extractNestedSchema comps s1 st =
              ("NestedType" ++ Nat.repr (st.schemaCounter + 1),
               ⟨st.extractedSchemas ++
                  [(stringifySchema s1, s1,
                    "NestedType" ++ Nat.repr (st.schemaCounter + 1))],
                st.schemaCounter + 1⟩) := by
            simp [extractNestedSchema, h1, h2]
          rw [e1]
          have e2 : extractNestedSchema comps s2
              (⟨st.extractedSchemas ++
                  [(stringifySchema s1, s1,
                    "NestedType" ++ Nat.repr (st.schemaCounter + 1))],
                st.schemaCounter + 1⟩ : GenState) =
              ("NestedType" ++ Nat.repr (st.schemaCounter + 1),
               ⟨st.extractedSchemas ++
                  [(stringifySchema s1, s1,
                    "NestedType" ++ Nat.repr (st.schemaCounter + 1))],
                st.schemaCounter + 1⟩) := by
            simp [extractNestedSchema, hkey, h1,
              appendKeep ("NestedType" ++ Nat.repr (st.schemaCounter + 1)) s1 h2]
          rw [e2]
          exact ⟨rfl, rfl,
            appendCount ("NestedType" ++ Nat.repr (st.schemaCounter + 1)) s1 h2,
            appendNodup ("NestedType" ++ Nat.repr (st.schemaCounter + 1)) s1 h2⟩

/-- Example schemas: a string primitive and small unnamed objects. -/
def sString : Schema :=
  Schema.mk (Option.some "string") Option.none ItemsF.none PropsF.none
    Option.none Option.none Option.none

/-- A 2-property object schema `{a, b}`. -/
def exPair : Schema :=
  Schema.mk (Option.some "object") Option.none ItemsF.none
    (PropsF.some (SProps.cons "a" sString (SProps.cons "b" sString SProps.nil)))
    Option.none Option.none Option.none

/-- A 3-property object schema `{a, b, c}`. -/
def exTriple : Schema :=
  Schema.mk (Option.some "object") Option.none ItemsF.none
    (PropsF.some (SProps.cons "a" sString (SProps.cons "b" sString
      (SProps.cons "c" sString SProps.nil))))
    Option.none Option.none Option.none

/-- C2 witness: concrete instantiation of
`register_idempotent_per_fingerprint` at the empty run state. -/
theorem register_idempotent_per_fingerprint_witness :
    (extractNestedSchema [] exTriple (extractNestedSchema [] exTriple initState).2).1
        = (extractNestedSchema [] exTriple initState).1 ∧
    (extractNestedSchema [] exTriple (extractNestedSchema [] exTriple initState).2).2
        = (extractNestedSchema [] exTriple initState).2 ∧
    (extractNestedSchema [] exTriple initState).2.extractedSchemas.countP
        (fun e => e.1 == stringifySchema exTriple) = 1 ∧
    keysNodup (extractNestedSchema [] exTriple initState).2 :=
  register_idempotent_per_fingerprint [] exTriple exTriple initState rfl
    (by simp [keysNodup, initState])

/-! ### C3 — the extraction decision -/

/-- The number of properties of a schema object, 0 when `properties` is
absent (`Object.keys(schema.properties).length`). -/
def propCount (s : Schema) : Nat :=
  match s.propsF with
  | .none => 0
  | .some ps => ps.length

/-- C3 (amended): `shouldExtractNestedSchema` depends only on the property
count — it returns `true` exactly when the object has at least 3 properties.
Neither the Component Name Index nor the Type Table is consulted (the
function does not even receive them), so an author-named object below the
threshold is not hoisted. -/
theorem extraction_threshold_only (s : Schema) :
    shouldExtractNestedSchema s = true ↔ 3 ≤ propCount s := by
  cases s with
  | mk t e i p r nb d =>
      cases p with
      | none => simp [shouldExtractNestedSchema, propCount, Schema.propsF]
      | some ps => simp [shouldExtractNestedSchema, propCount, Schema.propsF]

/-- The component name index of the C3 counterexample: the 2-property object
`exPair` is author-named `"Pair"`. -/
def compsPair : CompIndex := [(stringifySchema exPair, "Pair")]

/-- C3 counterexample: for the author-named 2-property object `exPair` the
claimed equivalence fails — its fingerprint is present in the Component Name
Index, so the claim says it must be extracted, but `shouldExtractNestedSchema`
returns `false`. -/
theorem extraction_decision_cex :
    ¬ (shouldExtractNestedSchema exPair = true ↔
        (3 ≤ propCount exPair ∨
         truthyLookup compsPair (stringifySchema exPair) ≠ Option.none ∨
         (lookupES initState.extractedSchemas (stringifySchema exPair)).isSome = true)) := by
  decide

/-- C3 witness: concrete instantiations of `extraction_threshold_only` on
both sides of the boundary. -/
theorem extraction_threshold_only_witness :
    shouldExtractNestedSchema exTriple = true ∧ shouldExtractNestedSchema exPair ≠ true :=
  ⟨(extraction_threshold_only exTriple).mpr (by decide),
   fun h => by have := (extraction_threshold_only exPair).mp h; revert this; decide⟩

/-! ### C1 — fingerprint determinism and (non-)order-insensitivity -/

/-- Lookup of a property by name in an ordered property list. -/
def spropsLookup : SProps → String → Option Schema
  | .nil, _ => Option.none
  | .cons n s rest, k => if n = k then Option.some s else spropsLookup rest k

/-- Equality of two string lists as sets (order-insensitive), used for the
spec's "order-insensitive `required`" and for property-name sets. -/
def sameStrSet (a b : List String) : Bool :=
  a.all b.contains && b.all a.contains

/-- The ordered list of property names of a property list. -/
def spropsNames : SProps → List String
  | .nil => []
  | .cons n _ rest => n :: spropsNames rest

mutual
/-- Modelled from the spec: the claim's notion of "structurally equal" schema
nodes — same shape, same property set (order-insensitive), same nested
shapes, order-insensitive `required`.  This definition follows the spec's
words; it exists only to state the order-insensitivity claim against the
source's fingerprint. -/
def specStructEq : Schema → Schema → Bool
  | .mk t1 e1 i1 p1 r1 nb1 d1, .mk t2 e2 i2 p2 r2 nb2 d2 =>
      t1 == t2 && e1 == e2 && specItemsEq i1 i2 && specPropsEq p1 p2 &&
      sameStrSet (r1.getD []) (r2.getD []) && nb1 == nb2 && d1 == d2
termination_by structural a _ => a
/-- Structural equality of optional `items`. -/
def specItemsEq : ItemsF → ItemsF → Bool
  | .none, .none => true
  | .some a, .some b => specStructEq a b
  | _, _ => false
termination_by structural a _ => a
/-- Structural equality of optional `properties`, as property sets: the two
lists name the same set of properties and each property of the first is
structurally equal to its same-named counterpart in the second. -/
def specPropsEq : PropsF → PropsF → Bool
  | .none, .none => true
  | .some a, .some b => specPropsSub a b && sameStrSet (spropsNames a) (spropsNames b)
  | _, _ => false
termination_by structural a _ => a
/-- Every property of the first list has a structurally equal property of the
same name in the second. -/
def specPropsSub : SProps → SProps → Bool
  | .nil, _ => true
  | .cons n s rest, b =>
      (match spropsLookup b n with
       | Option.some s2 => specStructEq s s2
       | Option.none => false) && specPropsSub rest b
termination_by structural a _ => a
end

/-- The 2-property object `{b, a}`: the same property set as `exPair` but
inserted in the opposite order. -/
def exPairRev : Schema :=
  Schema.mk (Option.some "object") Option.none ItemsF.none
    (PropsF.some (SProps.cons "b" sString (SProps.cons "a" sString SProps.nil)))
    Option.none Option.none Option.none

/-- C1 counterexample: `exPair` and `exPairRev` are structurally equal in the
spec's sense (same shape, same property set, order-insensitive `required`)
but their fingerprints differ, because `JSON.stringify` serializes properties
in insertion order; consequently the parser-built Component Name Index keyed
on the fingerprint of one insertion order fails to recognize the other. -/
theorem fingerprint_order_sensitivity_cex :
    specStructEq exPair exPairRev = true ∧
    stringifySchema exPair ≠ stringifySchema exPairRev ∧
    truthyLookup (extractComponentNames [("Pair", exPair)] []) (stringifySchema exPair)
      = Option.some "Pair" ∧
    truthyLookup (extractComponentNames [("Pair", exPair)] []) (stringifySchema exPairRev)
      = Option.none := by
  decide

/-- C1 (amended): the fingerprint is deterministic — it is a pure function of
the schema value, so repeated calls on the same node always return the same
string — but it is not insertion-order-insensitive: structurally equal nodes
whose properties were inserted in different orders can produce different
fingerprints. -/
theorem fingerprint_deterministic_but_order_sensitive :
    (∀ s1 s2 : Schema, s1 = s2 → stringifySchema s1 = stringifySchema s2) ∧
    specStructEq exPair exPairRev = true ∧
    stringifySchema exPair ≠ stringifySchema exPairRev :=
  ⟨fun _ _ h => by rw [h], by decide, by decide⟩

/-- C1 witness: concrete instantiation of the determinism half of
`fingerprint_deterministic_but_order_sensitive`. -/
theorem fingerprint_deterministic_witness :
    stringifySchema exPair = stringifySchema exPair :=
  fingerprint_deterministic_but_order_sensitive.1 exPair exPair rfl

/-! ### C9 — empty enums -/

/-- C9 (amended): a schema whose `enum` is the empty array is not degraded to
a generic primitive: the truthy-array guard `if (s.enum)` takes the enum
branch, so the type synthesizer emits the empty literal union (the empty
string, ` | null` when nullable) and the validator synthesizer emits
`enum([])` (`enum([]).nullable()` when nullable); no state is touched and no
diagnostic exists on this path. -/
theorem empty_enum_emits_empty_union (comps : CompIndex) (s : Schema) (st : GenState)
    (h : s.enm = Option.some []) :
    (schemaToTypeScript comps s st).1 = (if truthyB s.nullb then " | null" else "") ∧
    (schemaToTypeScript comps s st).2 = st ∧
    (schemaToZodType comps s st).1 =
      (if truthyB s.nullb then "enum([]).nullable()" else "enum([])") ∧
    (schemaToZodType comps s st).2 = st := by
  cases s with
  | mk t e i p r nb d =>
      simp only [Schema.enm] at h
      subst h
      cases hb : truthyB nb <;>
        simp only [schemaToTypeScript, schemaToZodType, Schema.nullb, hb, List.map_nil,
          ite_true, ite_false, cond_true, cond_false, Bool.false_eq_true, Bool.true_eq_false] <;>
        exact ⟨by decide, trivial, by decide, trivial⟩

/-- An empty-enum schema. -/
def exEmptyEnum : Schema :=
  Schema.mk Option.none (Option.some []) ItemsF.none PropsF.none
    Option.none Option.none Option.none

/-- C9 counterexample: on the empty-enum schema the type synthesizer returns
the empty string and the validator synthesizer returns `enum([])` — an empty
union of literals, not a generic primitive type. -/
theorem empty_enum_cex :
    (schemaToTypeScript [] exEmptyEnum initState).1 = "" ∧
    (schemaToZodType [] exEmptyEnum initState).1 = "enum([])" ∧
    (schemaToTypeScript [] exEmptyEnum initState).1 ≠ "string" ∧
    (schemaToTypeScript [] exEmptyEnum initState).1 ≠ "number" ∧
    (schemaToTypeScript [] exEmptyEnum initState).1 ≠ "boolean" ∧
    (schemaToTypeScript [] exEmptyEnum initState).1 ≠ "unknown" ∧
    (schemaToZodType [] exEmptyEnum initState).1 ≠ "string()" ∧
    (schemaToZodType [] exEmptyEnum initState).1 ≠ "number()" ∧
    (schemaToZodType [] exEmptyEnum initState).1 ≠ "boolean()" ∧
    (schemaToZodType [] exEmptyEnum initState).1 ≠ "unknown()" := by
  decide

/-- C9 witness: concrete instantiation of `empty_enum_emits_empty_union`. -/
theorem empty_enum_emits_empty_union_witness :
    (schemaToTypeScript [] exEmptyEnum initState).1
        = (if truthyB exEmptyEnum.nullb then " | null" else "") ∧
    (schemaToTypeScript [] exEmptyEnum initState).2 = initState ∧
    (schemaToZodType [] exEmptyEnum initState).1
        = (if truthyB exEmptyEnum.nullb then "enum([]).nullable()" else "enum([])") ∧
    (schemaToZodType [] exEmptyEnum initState).2 = initState :=
  empty_enum_emits_empty_union [] exEmptyEnum initState rfl

/-! ### Decimal numerals

The fallback names are `"NestedType" ++ Nat.repr counter` (the model of the
template literal `` `NestedType${this.schemaCounter}` ``).  Uniqueness of
fallback names reduces to injectivity of `Nat.repr`, proved here via a
fuel-free reformulation of `Nat.toDigitsCore`. -/

/-- Decimal digits of a natural number, most significant first. -/
def decDigits (n : Nat) : List Char :=
  if n < 10 then [Nat.digitChar n]
  else decDigits (n / 10) ++ [Nat.digitChar (n % 10)]
termination_by n
decreasing_by
  exact Nat.div_lt_self (by omega) (by omega)

theorem toDigitsCore_eq_decDigits :
    ∀ (f n : Nat) (ds : List Char), n < f →
      Nat.toDigitsCore 10 f n ds = decDigits n ++ ds := by
  intro f
  induction f with
  | zero => intro n ds h; omega
  | succ f ih =>
      intro n ds h
      by_cases h10 : n / 10 = 0
      · have hn : n < 10 := by omega
        have hmod : n % 10 = n := by omega
        rw [Nat.toDigitsCore]
        simp only [h10, ite_true, if_pos h10, hmod]
        rw [decDigits, if_pos hn]
        rfl
      · have hfuel : n / 10 < f := by omega
        rw [Nat.toDigitsCore]
        simp only [h10, ite_false, if_neg h10]
        rw [ih (n / 10) _ hfuel]
        conv_rhs => rw [decDigits, if_neg (show ¬ n < 10 by omega)]
        rw [List.append_assoc]
        rfl

theorem digitChar_toNat (n : Nat) (h : n < 10) : (Nat.digitChar n).toNat = 48 + n := by
  interval_cases n <;> decide

/-- The value of a most-significant-first decimal digit string. -/
def decVal (l : List Char) : Nat :=
  l.foldl (fun a c => 10 * a + (c.toNat - 48)) 0

theorem decVal_append_singleton (l : List Char) (c : Char) :
    decVal (l ++ [c]) = 10 * decVal l + (c.toNat - 48) := by
  simp [decVal, List.foldl_append]

theorem decVal_decDigits : ∀ n : Nat, decVal (decDigits n) = n := by
  intro n
  induction n using Nat.strong_induction_on with
  | _ n ih =>
      by_cases h : n < 10
      · rw [decDigits, if_pos h]
        simp only [decVal, List.foldl_cons, List.foldl_nil]
        rw [digitChar_toNat n h]
        omega
      · rw [decDigits, if_neg h]
        rw [decVal_append_singleton]
        rw [ih (n / 10) (Nat.div_lt_self (by omega) (by omega))]
        rw [digitChar_toNat (n % 10) (by omega)]
        omega

theorem repr_eq_decDigits (n : Nat) : Nat.repr n = (decDigits n).asString := by
  rw [Nat.repr, Nat.toDigits,
    toDigitsCore_eq_decDigits (n + 1) n [] (Nat.lt_succ_self n), List.append_nil]

theorem repr_injective {m n : Nat} (h : Nat.repr m = Nat.repr n) : m = n := by
  rw [repr_eq_decDigits, repr_eq_decDigits] at h
  have hd : decDigits m = decDigits n := congrArg String.data h
  calc m = decVal (decDigits m) := (decVal_decDigits m).symm
    _ = decVal (decDigits n) := by rw [hd]
    _ = n := decVal_decDigits n

/-- The fallback name issued for counter value `i`. -/
def fallbackName (i : Nat) : String := "NestedType" ++ Nat.repr i

theorem fallbackName_injective {i j : Nat} (h : fallbackName i = fallbackName j) : i = j := by
  have hd := congrArg String.data h
  simp only [fallbackName, String.data_append] at hd
  exact repr_injective (String.ext (List.append_cancel_left hd))

/-! ### Invariant preservation

In the source, the only operation that ever mutates the generator state
(`this.extractedSchemas`, `this.schemaCounter`) is `extractNestedSchema`; every
synthesizer reaches the state exclusively through it.  Hence any state
predicate preserved by `extractNestedSchema` is preserved by every entry
point, which the following lemmas establish by structural induction. -/

/-- A state predicate preserved by every `extractNestedSchema` call. -/
def extPreserved (comps : CompIndex) (P : GenState → Prop) : Prop :=
  ∀ s st, P st → P (extractNestedSchema comps s st).2

theorem schema_sizeOf_pos (s : Schema) : 0 < sizeOf s := by
  obtain ⟨t, e, i, p, r, nb, d⟩ := s
  simp_arith

theorem sprops_sizeOf_pos (ps : SProps) : 0 < sizeOf ps := by
  cases ps <;> simp_arith

theorem ts_tsl_preserves (comps : CompIndex) (P : GenState → Prop)
    (hP : extPreserved comps P) (N : Nat) :
    (∀ s st, sizeOf s ≤ N → P st → P (schemaToTypeScript comps s st).2) ∧
    (∀ ps st, sizeOf ps ≤ N → P st → P (tsPropList comps ps st).2) := by
  induction N with
  | zero =>
      constructor
      · intro s st hsz hst
        have := schema_sizeOf_pos s
        omega
      · intro ps st hsz hst
        have := sprops_sizeOf_pos ps
        omega
  | succ N ih =>
      obtain ⟨ihS, ihL⟩ := ih
      constructor
      · intro s st hsz hst
        obtain ⟨t, e, i, p, r, nb, d⟩ := s
        cases e with
        | some l => exact hst
        | none =>
            rw [schemaToTypeScript.eq_def]
            dsimp
            repeat' split
            all_goals
              first
              | exact hst
              | exact hP _ _ hst
              | (rename_i x
                 refine ihS x st ?_ hst
                 simp at hsz
                 omega)
              | (rename_i x hcond
                 refine ihL x st ?_ hst
                 simp at hsz
                 omega)
      · intro ps st hsz hst
        cases ps with
        | nil => exact hst
        | cons n s rest =>
            have hs1 : sizeOf s ≤ N := by simp at hsz; omega
            have hs2 : sizeOf rest ≤ N := by simp at hsz; omega
            rw [tsPropList.eq_def]
            exact ihL rest _ hs2 (ihS s st hs1 hst)

theorem schemaToTypeScript_preserves (comps : CompIndex) (P : GenState → Prop)
    (hP : extPreserved comps P) (s : Schema) (st : GenState) (hst : P st) :
    P (schemaToTypeScript comps s st).2 :=
  (ts_tsl_preserves comps P hP (sizeOf s)).1 s st le_rfl hst

theorem tsPropList_preserves (comps : CompIndex) (P : GenState → Prop)
    (hP : extPreserved comps P) (ps : SProps) (st : GenState) (hst : P st) :
    P (tsPropList comps ps st).2 :=
  (ts_tsl_preserves comps P hP (sizeOf ps)).2 ps st le_rfl hst

theorem zod_preserves_aux (comps : CompIndex) (P : GenState → Prop)
    (hP : extPreserved comps P) (N : Nat) :
    ∀ s st, sizeOf s ≤ N → P st → P (schemaToZodType comps s st).2 := by
  induction N with
  | zero =>
      intro s st hsz hst
      have := schema_sizeOf_pos s
      omega
  | succ N ih =>
      intro s st hsz hst
      obtain ⟨t, e, i, p, r, nb, d⟩ := s
      cases e with
      | some l => exact hst
      | none =>
          rw [schemaToZodType.eq_def]
          dsimp
          repeat' split
          all_goals
            first
            | exact hst
            | exact hP _ _ hst
            | (rename_i x hcond
               refine ih x st ?_ hst
               simp at hsz
               omega)

theorem schemaToZodType_preserves (comps : CompIndex) (P : GenState → Prop)
    (hP : extPreserved comps P) (s : Schema) (st : GenState) (hst : P st) :
    P (schemaToZodType comps s st).2 :=
  zod_preserves_aux comps P hP (sizeOf s) s st le_rfl hst

theorem interfacePropLine_preserves (comps : CompIndex) (P : GenState → Prop)
    (hP : extPreserved comps P) (indentStr : String) (required : List String)
    (n : String) (p : Schema) (st : GenState) (hst : P st) :
    P (interfacePropLine comps indentStr required n p st).2 :=
  schemaToTypeScript_preserves comps P hP p st hst

theorem interfaceProps_preserves (comps : CompIndex) (P : GenState → Prop)
    (hP : extPreserved comps P) (indentStr : String) (required : List String) :
    ∀ (N : Nat) (ps : SProps) (st : GenState), sizeOf ps ≤ N → P st →
      P (interfaceProps comps indentStr required ps st).2 := by
  intro N
  induction N with
  | zero =>
      intro ps st hsz hst
      have := sprops_sizeOf_pos ps
      omega
  | succ N ih =>
      intro ps st hsz hst
      cases ps with
      | nil => exact hst
      | cons n p rest =>
          have hs2 : sizeOf rest ≤ N := by simp at hsz; omega
          rw [interfaceProps.eq_def]
          exact ih rest _ hs2
            (interfacePropLine_preserves comps P hP indentStr required n p st hst)

theorem generateInterface_preserves (comps : CompIndex) (P : GenState → Prop)
    (hP : extPreserved comps P) (name : String) (s : Schema) (indent : Nat)
    (st : GenState) (hst : P st) :
    P (generateInterface comps name s indent st).2 := by
  obtain ⟨t, e, i, p, r, nb, d⟩ := s
  simp only [generateInterface]
  repeat' split
  all_goals
    first
    | exact hst
    | exact interfaceProps_preserves comps P hP _ _ (sizeOf _) _ st le_rfl hst
    | exact schemaToTypeScript_preserves comps P hP _ st hst

theorem zodPropLine_preserves (comps : CompIndex) (P : GenState → Prop)
    (hP : extPreserved comps P) (required : List String) (n : String) (p : Schema)
    (st : GenState) (hst : P st) :
    P (zodPropLine comps required n p st).2 :=
  schemaToZodType_preserves comps P hP p st hst

theorem zodProps_preserves (comps : CompIndex) (P : GenState → Prop)
    (hP : extPreserved comps P) (required : List String) :
    ∀ (N : Nat) (ps : SProps) (st : GenState), sizeOf ps ≤ N → P st →
      P (zodProps comps required ps st).2 := by
  intro N
  induction N with
  | zero =>
      intro ps st hsz hst
      have := sprops_sizeOf_pos ps
      omega
  | succ N ih =>
      intro ps st hsz hst
      cases ps with
      | nil => exact hst
      | cons n p rest =>
          have hs2 : sizeOf rest ≤ N := by simp at hsz; omega
          rw [zodProps.eq_def]
          exact ih rest _ hs2 (zodPropLine_preserves comps P hP required n p st hst)

theorem generateZodSchema_preserves (comps : CompIndex) (P : GenState → Prop)
    (hP : extPreserved comps P) (name : String) (s : Schema) (st : GenState)
    (hst : P st) :
    P (generateZodSchema comps name s st).2 := by
  obtain ⟨t, e, i, p, r, nb, d⟩ := s
  simp only [generateZodSchema]
  repeat' split
  all_goals
    first
    | exact hst
    | exact zodProps_preserves comps P hP _ (sizeOf _) _ st le_rfl hst
    | exact schemaToZodType_preserves comps P hP _ st hst

theorem responseGroup_preserves (comps : CompIndex) (P : GenState → Prop)
    (hP : extPreserved comps P) (names : List String) (schema : Schema)
    (st : GenState) (hst : P st) :
    P (responseGroup comps names schema st).state := by
  simp only [responseGroup]
  split
  · exact hst
  · exact generateInterface_preserves comps P hP _ schema 0 st hst

/-- One synthesizer invocation of a generation run; all mutations of the
generator state happen inside these entry points. -/
inductive SynthCall where
  | typeOf (s : Schema)
  | zodOf (s : Schema)
  | ifaceOf (name : String) (s : Schema)
  | zodSchemaOf (name : String) (s : Schema)
  | respGroupOf (names : List String) (s : Schema)
  | extractOf (s : Schema)
  deriving DecidableEq

/-- Execute a sequence of synthesizer invocations from a starting state: an
arbitrary generation run over one `MCPGenerator` instance with a fixed
component index. -/
def runCalls (comps : CompIndex) : List SynthCall → GenState → GenState
  | [], st => st
  | c :: cs, st =>
      let st1 :=
        match c with
        | .typeOf s => (schemaToTypeScript comps s st).2
        | .zodOf s => (schemaToZodType comps s st).2
        | .ifaceOf name s => (generateInterface comps name s 0 st).2
        | .zodSchemaOf name s => (generateZodSchema comps name s st).2
        | .respGroupOf names s => (responseGroup comps names s st).state
        | .extractOf s => (extractNestedSchema comps s st).2
      runCalls comps cs st1

theorem runCalls_preserves (comps : CompIndex) (P : GenState → Prop)
    (hP : extPreserved comps P) :
    ∀ (calls : List SynthCall) (st : GenState), P st → P (runCalls comps calls st) := by
  intro calls
  induction calls with
  | nil => intro st h; exact h
  | cons c cs ih =>
      intro st h
      cases c with
      | typeOf s => exact ih _ (schemaToTypeScript_preserves comps P hP s st h)
      | zodOf s => exact ih _ (schemaToZodType_preserves comps P hP s st h)
      | ifaceOf name s => exact ih _ (generateInterface_preserves comps P hP name s 0 st h)
      | zodSchemaOf name s => exact ih _ (generateZodSchema_preserves comps P hP name s st h)
      | respGroupOf names s => exact ih _ (responseGroup_preserves comps P hP names s st h)
      | extractOf s => exact ih _ (hP s st h)

theorem lookup_mem {β : Type} {l : List (String × β)} {k : String} {v : β}
    (h : l.lookup k = Option.some v) : (k, v) ∈ l := by
  induction l with
  | nil => simp at h
  | cons e es ih =>
      obtain ⟨k', v'⟩ := e
      cases hbeq : k == k' with
      | true =>
          have hk : k = k' := by simpa using hbeq
          subst hk
          rw [List.lookup_cons, hbeq] at h
          simp only [Option.some.injEq] at h
          subst h
          exact List.mem_cons_self _ _
      | false =>
          rw [List.lookup_cons, hbeq] at h
          exact List.mem_cons_of_mem _ (ih h)

/-! ### C4 — component-name precedence -/

/-- The component-precedence invariant: a Type Table entry whose fingerprint
the component index knows carries exactly the component name. -/
def compConsistent (comps : CompIndex) (st : GenState) : Prop :=
  ∀ k sc nm, (k, sc, nm) ∈ st.extractedSchemas →
    ∀ c, truthyLookup comps k = Option.some c → nm = c

theorem extract_compConsistent (comps : CompIndex) :
    extPreserved comps (compConsistent comps) := by
  intro s st hst
  unfold extractNestedSchema
  cases h1 : truthyLookup comps (stringifySchema s) with
  | some c =>
      cases h2 : (lookupES st.extractedSchemas (stringifySchema s)).isSome with
      | true => simpa [h1, h2] using hst
      | false =>
          simp only [h1, h2, ite_false, Bool.false_eq_true]
          intro k sc nm hmem c' hc'
          rcases List.mem_append.mp hmem with hold | hnew
          · exact hst k sc nm hold c' hc'
          · simp only [List.mem_singleton, Prod.mk.injEq] at hnew
            obtain ⟨hk, _, hnm⟩ := hnew
            subst hk
            rw [h1] at hc'
            simp only [Option.some.injEq] at hc'
            exact hnm.trans hc'
  | none =>
      cases h2 : lookupES st.extractedSchemas (stringifySchema s) with
      | some entry => simpa [h1, h2] using hst
      | none =>
          simp only [h1, h2]
          intro k sc nm hmem c' hc'
          rcases List.mem_append.mp hmem with hold | hnew
          · exact hst k sc nm hold c' hc'
          · simp only [List.mem_singleton, Prod.mk.injEq] at hnew
            obtain ⟨hk, _, _⟩ := hnew
            subst hk
            rw [h1] at hc'
            exact absurd hc' (by simp)

theorem extract_fst_of_comp (comps : CompIndex) (s : Schema) (st : GenState) (c : String)
    (hc : truthyLookup comps (stringifySchema s) = Option.some c) :
    (extractNestedSchema comps s st).1 = c := by
  unfold extractNestedSchema
  cases h2 : (lookupES st.extractedSchemas (stringifySchema s)).isSome <;>
    simp [hc, h2]

theorem extract_lookup_of_comp (comps : CompIndex) (s : Schema) (st : GenState) (c : String)
    (hc : truthyLookup comps (stringifySchema s) = Option.some c)
    (hst : compConsistent comps st) :
    ∃ sc, lookupES (extractNestedSchema comps s st).2.extractedSchemas (stringifySchema s)
        = Option.some (sc, c) := by
  cases h2 : lookupES st.extractedSchemas (stringifySchema s) with
  | some entry =>
      obtain ⟨sc, nm⟩ := entry
      have hnm : nm = c := hst _ sc nm (lookup_mem h2) c hc
      have e1 : extractNestedSchema comps s st = (c, st) := by
        simp [extractNestedSchema, hc, h2]
      rw [e1]
      exact ⟨sc, by rw [h2, hnm]⟩
  | none =>
      have e1 : extractNestedSchema comps s st =
          (c, ⟨st.extractedSchemas ++ [(stringifySchema s, s, c)], st.schemaCounter⟩) := by
        simp [extractNestedSchema, hc, h2]
      rw [e1]
      refine ⟨s, ?_⟩
      simp only [lookupES] at h2 ⊢
      rw [lookup_append, h2]
      simp [List.lookup_cons]

/-- C4: component-name precedence.  At any point of a run (any state reached
by `runCalls` from the run-initial state), for a schema whose fingerprint the
Component Name Index maps to `c`: the Type Table never associates that
fingerprint with any other name; `extractNestedSchema` returns `c` and leaves
the table holding `c` for it; a hoisted object reference from the type
synthesizer is `c`; an array-of-that-object reference from the validator
synthesizer is `array(cSchema)`; and the response-deduplication pass chooses
`c` both as the canonical declaration name and as the alias reference name —
never a generated fallback name. -/
theorem component_name_precedence (comps : CompIndex) (calls : List SynthCall)
    (s : Schema) (c : String)
    (hc : truthyLookup comps (stringifySchema s) = Option.some c) :
    (∀ sc nm, (stringifySchema s, sc, nm) ∈ (runCalls comps calls initState).extractedSchemas
        → nm = c) ∧
    (extractNestedSchema comps s (runCalls comps calls initState)).1 = c ∧
    (∃ sc, lookupES
        (extractNestedSchema comps s (runCalls comps calls initState)).2.extractedSchemas
        (stringifySchema s) = Option.some (sc, c)) ∧
    (s.ty = Option.some "object" → s.enm = Option.none → s.nullb = Option.none →
      shouldExtractNestedSchema s = true →
      (schemaToTypeScript comps s (runCalls comps calls initState)).1 = c) ∧
    (∀ w : Schema, w.ty = Option.some "array" → w.enm = Option.none →
      w.nullb = Option.none → w.itemsF = ItemsF.some s →
      s.ty = Option.some "object" → s.propsF ≠ PropsF.none →
      shouldExtractNestedSchema s = true →
      (schemaToZodType comps w (runCalls comps calls initState)).1
        = "array(" ++ c ++ "Schema)") ∧
    (∀ names : List String,
      (responseGroup comps names s (runCalls comps calls initState)).canonicalName = c ∧
      (responseGroup comps names s (runCalls comps calls initState)).referenceName = c) := by
  have hinv : compConsistent comps (runCalls comps calls initState) :=
    runCalls_preserves comps (compConsistent comps) (extract_compConsistent comps) calls
      initState (by intro k sc nm hmem; simp [initState] at hmem)
  set st := runCalls comps calls initState with hstdef
  refine ⟨fun sc nm hmem => hinv _ sc nm hmem c hc,
          extract_fst_of_comp comps s st c hc,
          extract_lookup_of_comp comps s st c hc hinv, ?_, ?_, ?_⟩
  · intro hty henm hnb hex
    obtain ⟨t, e, i, p, r, nb, d⟩ := s
    simp only [Schema.ty] at hty
    simp only [Schema.enm] at henm
    simp only [Schema.nullb] at hnb
    subst hty henm hnb
    rw [schemaToTypeScript.eq_def]
    dsimp
    cases hp : p with
    | none => rw [hp] at hex; simp [shouldExtractNestedSchema, Schema.propsF] at hex
    | some ps =>
        subst hp
        simp only [hex, ite_true, if_pos]
        exact extract_fst_of_comp comps _ st c hc
  · intro w hty henm hnb hitems hsty hsp hex
    obtain ⟨wt, we, wi, wp, wr, wnb, wd⟩ := w
    simp only [Schema.ty] at hty
    simp only [Schema.enm] at henm
    simp only [Schema.nullb] at hnb
    simp only [Schema.itemsF] at hitems
    subst hty henm hnb hitems
    rw [schemaToZodType.eq_def]
    dsimp
    simp only [hsty, hsp, hex, ne_eq, not_false_eq_true, and_self, and_true, true_and,
      ite_true, if_pos]
    rw [extract_fst_of_comp comps s st c hc]
    simp [truthyB]
  · intro names
    simp only [responseGroup, hc]
    constructor
    · trivial
    · cases hae : (lookupES st.extractedSchemas (stringifySchema s)).isSome with
      | false => simp [hae]
      | true =>
          simp only [hae, ite_true]
          cases h2 : lookupES st.extractedSchemas (stringifySchema s) with
          | none => simp [h2] at hae
          | some entry =>
              obtain ⟨sc, nm⟩ := entry
              have hnm : nm = c := hinv _ sc nm (lookup_mem h2) c hc
              simp [h2, hnm]

/-- The component index of the C4 witness: `exTriple` is author-named
`Repository`. -/
def compsRepo : CompIndex := [(stringifySchema exTriple, "Repository")]

/-- C4 witness: concrete instantiation of `component_name_precedence` on the
empty run. -/
theorem component_name_precedence_witness :
    (extractNestedSchema compsRepo exTriple (runCalls compsRepo [] initState)).1
      = "Repository" ∧
    (responseGroup compsRepo ["AResponse"] exTriple
        (runCalls compsRepo [] initState)).canonicalName = "Repository" ∧
    (responseGroup compsRepo ["AResponse"] exTriple
        (runCalls compsRepo [] initState)).referenceName = "Repository" :=
  ⟨(component_name_precedence compsRepo [] exTriple "Repository" (by decide)).2.1,
   ((component_name_precedence compsRepo [] exTriple "Repository"
      (by decide)).2.2.2.2.2 ["AResponse"]).1,
   ((component_name_precedence compsRepo [] exTriple "Repository"
      (by decide)).2.2.2.2.2 ["AResponse"]).2⟩

/-! ### C6 — name uniqueness -/

/-- Invariant for runs with an empty component index: every Type Table entry
carries a fallback name with index at most the current counter, and the
names are pairwise distinct. -/
def uniqFallback (st : GenState) : Prop :=
  (st.extractedSchemas.map (fun e => e.2.2)).Nodup ∧
  ∀ e ∈ st.extractedSchemas, ∃ i, i ≤ st.schemaCounter ∧ e.2.2 = fallbackName i

theorem extract_uniqFallback : extPreserved [] uniqFallback := by
  intro s st hst
  obtain ⟨hnd, hfb⟩ := hst
  have hcomp : truthyLookup [] (stringifySchema s) = Option.none := rfl
  cases h2 : lookupES st.extractedSchemas (stringifySchema s) with
  | some entry =>
      have e1 : (extractNestedSchema [] s st).2 = st := by
        simp [extractNestedSchema, hcomp, h2]
      rw [e1]
      exact ⟨hnd, hfb⟩
  | none =>
      have e1 : (extractNestedSchema [] s st).2 =
          ⟨st.extractedSchemas ++
            [(stringifySchema s, s, fallbackName (st.schemaCounter + 1))],
           st.schemaCounter + 1⟩ := by
        simp [extractNestedSchema, hcomp, h2, fallbackName]
      rw [e1]
      constructor
      · simp only [List.map_append, List.map_cons, List.map_nil]
        rw [List.nodup_append]
        refine ⟨hnd, List.nodup_singleton _, ?_⟩
        intro a ha hb
        simp only [List.mem_singleton] at hb
        subst hb
        obtain ⟨e, he, hea⟩ := List.mem_map.mp ha
        obtain ⟨i, hi, hei⟩ := hfb e he
        rw [hei] at hea
        have : i = st.schemaCounter + 1 := fallbackName_injective hea
        omega
      · intro e he
        rcases List.mem_append.mp he with hold | hnew
        · obtain ⟨i, hi, hei⟩ := hfb e hold
          exact ⟨i, Nat.le_succ_of_le hi, hei⟩
        · simp only [List.mem_singleton] at hnew
          subst hnew
          exact ⟨st.schemaCounter + 1, le_rfl, rfl⟩

/-- C6 (amended): the source has no collision check and appends no numeric
suffix; name uniqueness holds only because fallback names use a fresh counter
value each time.  For every run with an EMPTY Component Name Index, two
distinct fingerprints registered in the run never receive the same name.
(With a nonempty index the guarantee fails: a component name that equals a
fallback name collides — see the counterexample.) -/
theorem distinct_fingerprints_distinct_names_without_components
    (calls : List SynthCall) (e1 e2 : String × Schema × String)
    (h1 : e1 ∈ (runCalls [] calls initState).extractedSchemas)
    (h2 : e2 ∈ (runCalls [] calls initState).extractedSchemas)
    (hk : e1.1 ≠ e2.1) : e1.2.2 ≠ e2.2.2 := by
  have hinv : uniqFallback (runCalls [] calls initState) :=
    runCalls_preserves [] uniqFallback extract_uniqFallback calls initState
      ⟨by simp [initState], by simp [initState]⟩
  intro hname
  exact hk (congrArg Prod.fst
    (List.inj_on_of_nodup_map hinv.1 h1 h2 hname))

/-- A second 3-property object schema `{p, q, r}`, structurally different
from `exTriple`. -/
def exTripleB : Schema :=
  Schema.mk (Option.some "object") Option.none ItemsF.none
    (PropsF.some (SProps.cons "p" sString (SProps.cons "q" sString
      (SProps.cons "r" sString SProps.nil))))
    Option.none Option.none Option.none

/-- A component index whose author-given name is literally `NestedType1` —
a legal OpenAPI component name that collides with the generator's first
fallback name. -/
def compsClash : CompIndex := [(stringifySchema exTriple, "NestedType1")]

/-- C6 counterexample: in one run, the unnamed schema `exTripleB` receives
the fallback name `NestedType1`, and the author-named schema `exTriple`
(component name `NestedType1`) is then registered under the same name — two
distinct fingerprints share one name and no numeric suffix is appended. -/
theorem name_collision_cex :
    stringifySchema exTripleB ≠ stringifySchema exTriple ∧
    lookupES (extractNestedSchema compsClash exTriple
        (extractNestedSchema compsClash exTripleB initState).2).2.extractedSchemas
        (stringifySchema exTripleB) = Option.some (exTripleB, "NestedType1") ∧
    lookupES (extractNestedSchema compsClash exTriple
        (extractNestedSchema compsClash exTripleB initState).2).2.extractedSchemas
        (stringifySchema exTriple) = Option.some (exTriple, "NestedType1") := by
  decide

/-- C6 witness: concrete instantiation of
`distinct_fingerprints_distinct_names_without_components` on a run that
registers `exTriple` and `exTripleB` with an empty component index. -/
theorem distinct_fingerprints_distinct_names_witness :
    (stringifySchema exTriple, exTriple, "NestedType1").2.2
      ≠ (stringifySchema exTripleB, exTripleB, "NestedType2").2.2 :=
  distinct_fingerprints_distinct_names_without_components
    [SynthCall.extractOf exTriple, SynthCall.extractOf exTripleB]
    (stringifySchema exTriple, exTriple, "NestedType1")
    (stringifySchema exTripleB, exTripleB, "NestedType2")
    (by decide) (by decide) (by decide)

/-! ### C7 — type/validator symmetry -/

/-- The shape of every schema stored in the Type Table: both call sites of
`extractNestedSchema` (the object branch of the synthesizers and the
array-items branch of the validator synthesizer) guard on an object schema
with a `properties` field. -/
def goodEntry (e : String × Schema × String) : Prop :=
  e.2.1.ty = Option.some "object" ∧ e.2.1.propsF ≠ PropsF.none

/-- C7 (amended): declarations are generated one per Type Table entry: the
`nestedZodSchemas` pass emits exactly one `export const <name>Schema =
z.object({...})` per entry and the `nestedInterfaces` pass exactly one
`export interface <name> {...}` per entry, both reading the same table — so
hoisting decisions are made once and consumed identically by both sides, and
WHEN the entry names are pairwise distinct each name has exactly one
validator declaration.  (Entry names need not be distinct — see the
counterexample — in which case one name receives two validator declarations
with different content.) -/
theorem validator_decl_per_entry (comps : CompIndex)
    (snapshot : List (String × Schema × String)) (st : GenState)
    (hgood : ∀ e ∈ snapshot, goodEntry e) :
    (nestedZodDecls comps snapshot st).1.length = snapshot.length ∧
    (∀ pr ∈ (nestedZodDecls comps snapshot st).1.zip snapshot,
        ∃ body, pr.1 = "export const " ++ pr.2.2.2 ++ "Schema = z.object(\x7b\n" ++ body) ∧
    (nestedInterfaceDecls comps snapshot st).1.length = snapshot.length ∧
    (∀ pr ∈ (nestedInterfaceDecls comps snapshot st).1.zip snapshot,
        ∃ body, pr.1 = "export interface " ++ pr.2.2.2 ++ " \x7b\n" ++ body) ∧
    ((snapshot.map (fun e => e.2.2)).Nodup →
      ∀ nm ∈ snapshot.map (fun e => e.2.2), (snapshot.map (fun e => e.2.2)).count nm = 1) := by
  refine ⟨?_, ?_, ?_, ?_, fun hnd nm hmem => List.count_eq_one_of_mem hnd hmem⟩
  · induction snapshot generalizing st with
    | nil => rfl
    | cons e es ih =>
        obtain ⟨k, sc, nm⟩ := e
        simp only [nestedZodDecls, List.length_cons]
        rw [ih _ (fun e he => hgood e (List.mem_cons_of_mem _ he))]
  · induction snapshot generalizing st with
    | nil => intro pr hpr; simp at hpr
    | cons e es ih =>
        intro pr hpr
        obtain ⟨k, sc, nm⟩ := e
        obtain ⟨hty, hps⟩ := hgood (k, sc, nm) (List.mem_cons_self _ _)
        obtain ⟨t, e', i, p, r, nb, d⟩ := sc
        simp only [Schema.ty] at hty
        simp only [Schema.propsF] at hps
        subst hty
        cases p with
        | none => exact absurd rfl hps
        | some ps =>
            simp only [nestedZodDecls, List.zip_cons_cons, List.mem_cons] at hpr
            rcases hpr with hhead | htail
            · subst hhead
              refine ⟨String.intercalate "\n"
                  (zodProps comps (r.getD []) ps st).1 ++ "\n\x7d);", ?_⟩
              simp only [generateZodSchema]
              rw [String.append_assoc, String.append_assoc, String.append_assoc]
            · exact ih _ (fun e he => hgood e (List.mem_cons_of_mem _ he)) pr htail
  · induction snapshot generalizing st with
    | nil => rfl
    | cons e es ih =>
        obtain ⟨k, sc, nm⟩ := e
        simp only [nestedInterfaceDecls, List.length_cons]
        rw [ih _ (fun e he => hgood e (List.mem_cons_of_mem _ he))]
  · induction snapshot generalizing st with
    | nil => intro pr hpr; simp at hpr
    | cons e es ih =>
        intro pr hpr
        obtain ⟨k, sc, nm⟩ := e
        obtain ⟨hty, hps⟩ := hgood (k, sc, nm) (List.mem_cons_self _ _)
        obtain ⟨t, e', i, p, r, nb, d⟩ := sc
        simp only [Schema.ty] at hty
        simp only [Schema.propsF] at hps
        subst hty
        cases p with
        | none => exact absurd rfl hps
        | some ps =>
            simp only [nestedInterfaceDecls, List.zip_cons_cons, List.mem_cons] at hpr
            rcases hpr with hhead | htail
            · subst hhead
              refine ⟨(interfaceProps comps "" (r.getD []) ps st).1 ++ "\x7d\n", ?_⟩
              have hj : String.join ([] : List String) = "" := rfl
              simp only [generateInterface]
              simp [String.append_assoc, hj]
            · exact ih _ (fun e he => hgood e (List.mem_cons_of_mem _ he)) pr htail

set_option maxRecDepth 8192 in
/-- C7 counterexample: the colliding run of the C6 counterexample produces
two validator declarations for the single name `NestedType1`, with different
content (one validates `{x,y,z}`, the other `{p,q,r}`), and likewise two
interface declarations — falsifying "no two validator declarations in one
run attach different content to the same name". -/
theorem duplicate_validator_decl_cex :
    ((nestedZodDecls compsClash
        (extractNestedSchema compsClash exTriple
          (extractNestedSchema compsClash exTripleB initState).2).2.extractedSchemas
        (extractNestedSchema compsClash exTriple
          (extractNestedSchema compsClash exTripleB initState).2).2).1.length = 2) ∧
    ((nestedZodDecls compsClash
        (extractNestedSchema compsClash exTriple
          (extractNestedSchema compsClash exTripleB initState).2).2.extractedSchemas
        (extractNestedSchema compsClash exTriple
          (extractNestedSchema compsClash exTripleB initState).2).2).1.getD 0 ""
      = "export const NestedType1Schema = z.object(\x7b\n  p: z.string().optional(),\n  q: z.string().optional(),\n  r: z.string().optional(),\n\x7d);") ∧
    ((nestedZodDecls compsClash
        (extractNestedSchema compsClash exTriple
          (extractNestedSchema compsClash exTripleB initState).2).2.extractedSchemas
        (extractNestedSchema compsClash exTriple
          (extractNestedSchema compsClash exTripleB initState).2).2).1.getD 1 ""
      = "export const NestedType1Schema = z.object(\x7b\n  a: z.string().optional(),\n  b: z.string().optional(),\n  c: z.string().optional(),\n\x7d);") ∧
    ((nestedZodDecls compsClash
        (extractNestedSchema compsClash exTriple
          (extractNestedSchema compsClash exTripleB initState).2).2.extractedSchemas
        (extractNestedSchema compsClash exTriple
          (extractNestedSchema compsClash exTripleB initState).2).2).1.getD 0 ""
      ≠ (nestedZodDecls compsClash
        (extractNestedSchema compsClash exTriple
          (extractNestedSchema compsClash exTripleB initState).2).2.extractedSchemas
        (extractNestedSchema compsClash exTriple
          (extractNestedSchema compsClash exTripleB initState).2).2).1.getD 1 "") := by
  decide

/-- C7 witness: concrete instantiation of `validator_decl_per_entry` on a
one-entry table. -/
theorem validator_decl_per_entry_witness :
    (nestedZodDecls [] [(stringifySchema exTriple, exTriple, "NestedType1")]
        initState).1.length = 1 ∧
    (nestedInterfaceDecls [] [(stringifySchema exTriple, exTriple, "NestedType1")]
        initState).1.length = 1 :=
  ⟨(validator_decl_per_entry [] [(stringifySchema exTriple, exTriple, "NestedType1")]
      initState (fun e he => by
        simp only [List.mem_singleton] at he
        subst he
        exact ⟨rfl, by decide⟩)).1,
   (validator_decl_per_entry [] [(stringifySchema exTriple, exTriple, "NestedType1")]
      initState (fun e he => by
        simp only [List.mem_singleton] at he
        subst he
        exact ⟨rfl, by decide⟩)).2.2.1⟩

/-! ### C5 — the response alias resolver -/

/-- C5 (amended): for a response-schema group with default names
`n0 :: rest` (pairwise distinct), an object shape not yet in the Type Table:
the pass emits exactly one structural declaration for the group, and
 * with no component name, the canonical name is the first operation's
   default name `n0` and exactly the remaining `N − 1` names are aliased to
   it;
 * with a component name `c` distinct from every default name, the canonical
   declaration is named `c` and ALL `N` default names are aliased to it
   (`N` aliases, not `N − 1` as claimed). -/
theorem response_group_canonical_and_aliases (comps : CompIndex) (st : GenState)
    (n0 : String) (rest : List String) (s : Schema) (ps : SProps)
    (hnd : (n0 :: rest).Nodup)
    (hty : s.ty = Option.some "object") (hp : s.propsF = PropsF.some ps)
    (hfresh : lookupES st.extractedSchemas (stringifySchema s) = Option.none) :
    (truthyLookup comps (stringifySchema s) = Option.none →
      (responseGroup comps (n0 :: rest) s st).interfaceCode
          = (generateInterface comps n0 s 0 st).1 ∧
      (∃ body, (responseGroup comps (n0 :: rest) s st).interfaceCode
          = "export interface " ++ n0 ++ " \x7b\n" ++ body) ∧
      (responseGroup comps (n0 :: rest) s st).aliasLines
          = rest.map (fun al => "export type " ++ al ++ " = " ++ n0 ++ ";") ∧
      (responseGroup comps (n0 :: rest) s st).aliasLines.length = rest.length) ∧
    (∀ c, truthyLookup comps (stringifySchema s) = Option.some c → c ∉ n0 :: rest →
      (∃ body, (responseGroup comps (n0 :: rest) s st).interfaceCode
          = "export interface " ++ c ++ " \x7b\n" ++ body) ∧
      (responseGroup comps (n0 :: rest) s st).aliasLines
          = (n0 :: rest).map (fun al => "export type " ++ al ++ " = " ++ c ++ ";") ∧
      (responseGroup comps (n0 :: rest) s st).aliasLines.length
          = (n0 :: rest).length) := by
  have hae : (lookupES st.extractedSchemas (stringifySchema s)).isSome = false := by
    simp [hfresh]
  have hiface : ∀ nm, ∃ body, (generateInterface comps nm s 0 st).1
      = "export interface " ++ nm ++ " \x7b\n" ++ body := by
    intro nm
    obtain ⟨t, e', i, p, r, nb, d⟩ := s
    simp only [Schema.ty] at hty
    simp only [Schema.propsF] at hp
    subst hty hp
    refine ⟨(interfaceProps comps "" (r.getD []) ps st).1 ++ "\x7d\n", ?_⟩
    have hj : String.join ([] : List String) = "" := rfl
    simp only [generateInterface]
    simp [String.append_assoc, hj]
  constructor
  · intro hcomp
    have hcanon : (responseGroup comps (n0 :: rest) s st).interfaceCode
        = (generateInterface comps n0 s 0 st).1 := by
      simp [responseGroup, hcomp, hae]
    have halias : (responseGroup comps (n0 :: rest) s st).aliasLines
        = rest.map (fun al => "export type " ++ al ++ " = " ++ n0 ++ ";") := by
      simp only [responseGroup, hcomp, hae, Bool.false_eq_true, ite_false]
      have hfilter : rest.filter (fun nm => decide (nm ≠ n0)) = rest := by
        rw [List.filter_eq_self]
        intro a ha
        simp only [List.nodup_cons] at hnd
        have han : a ≠ n0 := fun hc => hnd.1 (hc ▸ ha)
        simp [han]
      simp only [List.headD, List.drop_one, List.tail_cons, Option.getD_none, hfilter]
    refine ⟨hcanon, ?_, halias, by rw [halias, List.length_map]⟩
    rw [hcanon]
    exact hiface n0
  · intro c hcomp hnot
    have hcanon : (responseGroup comps (n0 :: rest) s st).interfaceCode
        = (generateInterface comps c s 0 st).1 := by
      simp [responseGroup, hcomp, hae]
    have halias : (responseGroup comps (n0 :: rest) s st).aliasLines
        = (n0 :: rest).map (fun al => "export type " ++ al ++ " = " ++ c ++ ";") := by
      simp only [responseGroup, hcomp, hae, Bool.false_eq_true, ite_false]
      have hfilter : (n0 :: rest).filter (fun nm => decide (nm ≠ c)) = n0 :: rest := by
        rw [List.filter_eq_self]
        intro a ha
        have hac : a ≠ c := fun hc => hnot (hc ▸ ha)
        simp [hac]
      simp only [Option.getD_none, hfilter]
    refine ⟨?_, halias, by rw [halias, List.length_map]⟩
    rw [hcanon]
    exact hiface c

set_option maxRecDepth 8192 in
/-- C5 counterexample: two operations (`AResponse`, `BResponse`) share the
author-named response shape `exTriple` (component name `Repository`); the
pass emits the canonical `Repository` declaration and TWO alias
declarations — not `N − 1 = 1` as the claim states. -/
theorem response_alias_count_cex :
    (responseGroup compsRepo ["AResponse", "BResponse"] exTriple
        initState).aliasLines
      = ["export type AResponse = Repository;", "export type BResponse = Repository;"] ∧
    (responseGroup compsRepo ["AResponse", "BResponse"] exTriple
        initState).aliasLines.length = 2 ∧
    ¬ ((responseGroup compsRepo ["AResponse", "BResponse"] exTriple
        initState).aliasLines.length = 2 - 1) := by
  decide

/-- C5 witness: concrete instantiations of
`response_group_canonical_and_aliases` — one alias without a component name,
two aliases with one. -/
theorem response_group_canonical_and_aliases_witness :
    (responseGroup [] ["AResponse", "BResponse"] exTriple initState).aliasLines.length
      = ["BResponse"].length ∧
    (responseGroup compsRepo ["AResponse", "BResponse"] exTriple
        initState).aliasLines.length = ["AResponse", "BResponse"].length :=
  ⟨((response_group_canonical_and_aliases [] initState "AResponse" ["BResponse"] exTriple
      (SProps.cons "a" sString (SProps.cons "b" sString (SProps.cons "c" sString SProps.nil)))
      (by decide) rfl rfl rfl).1 rfl).2.2.2,
   ((response_group_canonical_and_aliases compsRepo initState "AResponse" ["BResponse"]
      exTriple
      (SProps.cons "a" sString (SProps.cons "b" sString (SProps.cons "c" sString SProps.nil)))
      (by decide) rfl rfl rfl).2 "Repository" (by decide) (by decide)).2.2⟩

/-! ### C10 — optionality markers in generated interfaces -/

/-- C10: in every interface declaration produced by `generateInterface`, a
property is marked optional (`?`) exactly when its name is absent from the
schema's `required` list OR its own schema has a truthy `nullable` — in
particular a property that is both listed in `required` and nullable is
emitted as optional. -/
theorem interface_optionality_iff (comps : CompIndex) (name : String) (s : Schema)
    (ps : SProps) (st : GenState)
    (hty : s.ty = Option.some "object") (hp : s.propsF = PropsF.some ps) :
    ((generateInterface comps name s 0 st).1
        = "export interface " ++ name ++ " \x7b\n"
          ++ (interfaceProps comps "" (s.req.getD []) ps st).1 ++ "\x7d\n") ∧
    (∀ (indentStr : String) (required : List String) (n : String) (p : Schema)
        (st' : GenState),
      (interfacePropLine comps indentStr required n p st').1
        = (match truthyS p.dsc with
           | Option.some dd => indentStr ++ "  /** " ++ dd ++ " */\n"
           | Option.none => "")
          ++ indentStr ++ "  " ++ n
          ++ (if n ∉ required ∨ truthyB p.nullb = true then "?" else "")
          ++ ": " ++ (schemaToTypeScript comps p st').1 ++ ";\n") ∧
    (∀ (indentStr : String) (required : List String) (n : String) (p : Schema)
        (st' : GenState),
      n ∈ required → truthyB p.nullb = true →
      (interfacePropLine comps indentStr required n p st').1
        = (match truthyS p.dsc with
           | Option.some dd => indentStr ++ "  /** " ++ dd ++ " */\n"
           | Option.none => "")
          ++ indentStr ++ "  " ++ n ++ "?"
          ++ ": " ++ (schemaToTypeScript comps p st').1 ++ ";\n") := by
  have hline : ∀ (indentStr : String) (required : List String) (n : String) (p : Schema)
      (st' : GenState),
      (interfacePropLine comps indentStr required n p st').1
        = (match truthyS p.dsc with
           | Option.some dd => indentStr ++ "  /** " ++ dd ++ " */\n"
           | Option.none => "")
          ++ indentStr ++ "  " ++ n
          ++ (if n ∉ required ∨ truthyB p.nullb = true then "?" else "")
          ++ ": " ++ (schemaToTypeScript comps p st').1 ++ ";\n" := by
    intro indentStr required n p st'
    simp only [interfacePropLine]
    congr 1
    by_cases hmem : n ∈ required
    · cases hnb : truthyB p.nullb with
      | true => simp [hmem, hnb]
      | false => simp [hmem, hnb]
    · simp [hmem]
  refine ⟨?_, hline, fun indentStr required n p st' hmem hnb => ?_⟩
  · obtain ⟨t, e', i, p', r, nb, d⟩ := s
    simp only [Schema.ty] at hty
    simp only [Schema.propsF] at hp
    subst hty hp
    have hj : String.join ([] : List String) = "" := rfl
    simp only [generateInterface, Schema.req]
    simp [hj]
  · rw [hline]
    have : (if n ∉ required ∨ truthyB p.nullb = true then "?" else "") = "?" :=
      if_pos (Or.inr hnb)
    rw [this]

/-- A nullable string property schema. -/
def sStringNullable : Schema :=
  Schema.mk (Option.some "string") Option.none ItemsF.none PropsF.none
    Option.none (Option.some true) Option.none

/-- C10 witness: a property that is listed in `required` AND nullable is
emitted with the optional marker. -/
theorem interface_optionality_iff_witness :
    (interfacePropLine [] "" ["a"] "a" sStringNullable initState).1
      = "" ++ "" ++ "  " ++ "a" ++ "?" ++ ": " ++ "string | null" ++ ";\n" :=
  ((interface_optionality_iff [] "User"
      (Schema.mk (Option.some "object") Option.none ItemsF.none
        (PropsF.some (SProps.cons "a" sStringNullable SProps.nil))
        (Option.some ["a"]) Option.none Option.none)
      (SProps.cons "a" sStringNullable SProps.nil) initState rfl rfl).2.2
    "" ["a"] "a" sStringNullable initState (by decide) (by decide)).trans (by decide)

/-! ### C8 — cyclic schemas

Cyclic JS values cannot be represented by the inductive `Schema`, so this
claim is settled over a heap model of JS object graphs: a node's object
properties hold heap addresses, so a schema fragment can reference its own
shape.  `JSON.stringify` throws a `TypeError` when it meets an object that is
still being serialized (its ancestor chain); the model carries the ancestor
chain explicitly and a fuel bound on depth (instantiated above any acyclic
depth, so on the concrete inputs below only the circular error occurs). -/

/-- A node of a JS object graph. -/
inductive JNode where
  | prim (s : String)
  | obj (fields : List (String × Nat))
  deriving DecidableEq

/-- A JS heap: address ↦ node. -/
abbrev JHeap := List (Nat × JNode)

/-- Model of `JSON.stringify` on a JS object graph (see section comment). -/
def stringifyAt : Nat → JHeap → List Nat → Nat → Except String String
  | 0, _, _, _ => Except.error "RangeError: Maximum call stack size exceeded"
  | fuel + 1, h, visited, a =>
      if a ∈ visited then Except.error "Converting circular structure to JSON"
      else
        match h.lookup a with
        | Option.none => Except.ok "null"
        | Option.some (JNode.prim s) => Except.ok (qstr s)
        | Option.some (JNode.obj fields) =>
            (fields.foldl
              (fun acc f =>
                match acc, stringifyAt fuel h (a :: visited) f.2 with
                | Except.ok vs, Except.ok v =>
                    Except.ok (vs ++ (if vs = "" then "" else ",") ++ qstr f.1 ++ ":" ++ v)
                | Except.error e, _ => Except.error e
                | _, Except.error e => Except.error e)
              (Except.ok ""))
            |>.map (fun body => "\x7b" ++ body ++ "\x7d")

/-- `JSON.stringify` of the value at address `a`, with fuel exceeding any
acyclic traversal depth of `h`. -/
def stringifyHeap (h : JHeap) (a : Nat) : Except String String :=
  stringifyAt (h.length + 1) h [] a

/-- Per-operation input of the generation pipeline: the address of the
operation's response schema, when present. -/
structure ToolH where
  responseAddr : Option Nat
  deriving DecidableEq

/-- The response-deduplication keys of `generateTypeScriptFiles`
(`JSON.stringify(tool.responseSchema)` per operation with a response): no
per-fragment catch exists there, so the first raised error aborts the whole
computation. -/
def respKeys (h : JHeap) : List ToolH → Except String (List String)
  | [] => Except.ok []
  | tl :: ts =>
      match tl.responseAddr with
      | Option.none => respKeys h ts
      | Option.some a =>
          match stringifyHeap h a, respKeys h ts with
          | Except.ok k, Except.ok ks => Except.ok (k :: ks)
          | Except.error e, _ => Except.error e
          | _, Except.error e => Except.error e

/-- The fatal error thrown by `generate`'s top-level catch
(`throw new GenerationError('Failed to generate MCP server', ...)`). -/
structure GenerationError where
  message : String
  deriving DecidableEq

/-- Model of `generate` for this claim.  Step 1 (`analyzeSchema`) stringifies
the whole schema inside its own try/catch and degrades a failure to the
circular-reference warning.  The file-generation step stringifies each
response schema with NO local catch; any error it raises reaches the
top-level catch of `generate`, which rethrows it as a fatal
`GenerationError` — the run aborts with no output and the accumulated
warnings are lost. -/
def generateModel (h : JHeap) (root : Nat) (tools : List ToolH) :
    Except GenerationError (List String × List String) :=
  let warnings :=
    match stringifyHeap h root with
    | Except.ok _ => ([] : List String)
    | Except.error _ => ["Schema contains circular references - manual review recommended"]
  match respKeys h tools with
  | Except.ok keys => Except.ok (warnings, keys)
  | Except.error _ => Except.error ⟨"Failed to generate MCP server"⟩

theorem respKeys_error (h : JHeap) :
    ∀ (tools : List ToolH), (∃ tl ∈ tools, ∃ a, tl.responseAddr = Option.some a ∧
        ∃ e, stringifyHeap h a = Except.error e) →
      ∃ e', respKeys h tools = Except.error e' := by
  intro tools
  induction tools with
  | nil => rintro ⟨tl, htl, _⟩; simp at htl
  | cons tl0 ts ih =>
      rintro ⟨tl, htl, a, ha, e, he⟩
      rcases List.mem_cons.mp htl with rfl | hmem
      · cases hrec : respKeys h ts with
        | ok ks => exact ⟨e, by simp [respKeys, ha, he, hrec]⟩
        | error e2 => exact ⟨e, by simp [respKeys, ha, he, hrec]⟩
      · obtain ⟨e', he'⟩ := ih ⟨tl, hmem, a, ha, e, he⟩
        cases hta : tl0.responseAddr with
        | none => exact ⟨e', by simp [respKeys, hta, he']⟩
        | some a0 =>
            cases hs : stringifyHeap h a0 with
            | ok k => exact ⟨e', by simp [respKeys, hta, hs, he']⟩
            | error e0 => exact ⟨e0, by simp [respKeys, hta, hs, he']⟩

/-- C8 (amended): a cyclic schema fragment does NOT degrade in the
generation path: when any operation's response schema cannot be stringified
(in particular when it is cyclic), the error propagates to `generate`'s
top-level catch and the run aborts with the fatal `GenerationError` and no
output.  Only the AI-analysis step degrades a cyclic whole-schema to a
warning: when every response schema stringifies, the run completes and a
cyclic top-level schema merely contributes the circular-reference warning. -/
theorem cyclic_schema_fatal (h : JHeap) (root : Nat) (tools : List ToolH) :
    ((∃ tl ∈ tools, ∃ a, tl.responseAddr = Option.some a ∧
        ∃ e, stringifyHeap h a = Except.error e) →
      generateModel h root tools = Except.error ⟨"Failed to generate MCP server"⟩) ∧
    (∀ ks, respKeys h tools = Except.ok ks →
      generateModel h root tools = Except.ok
        ((match stringifyHeap h root with
          | Except.ok _ => []
          | Except.error _ =>
              ["Schema contains circular references - manual review recommended"]), ks)) := by
  constructor
  · intro hex
    obtain ⟨e', he'⟩ := respKeys_error h tools hex
    rw [generateModel, he']
  · intro ks hks
    rw [generateModel, hks]

/-- A heap holding a schema object (address 0) one of whose fields
references its own shape, the cyclic input of scenario D. -/
def cyclicHeap : JHeap :=
  [(0, JNode.obj [("self", 0), ("a", 1), ("b", 1), ("c", 1)]),
   (1, JNode.prim "string")]

/-- C8 counterexample: on the cyclic response schema the fingerprinting
throws the circular-structure `TypeError`, and the run does NOT complete — it
aborts with the fatal `GenerationError` instead of degrading the fragment
and recording a warning. -/
theorem cyclic_schema_fatal_cex :
    stringifyHeap cyclicHeap 0 = Except.error "Converting circular structure to JSON" ∧
    generateModel cyclicHeap 0 [⟨Option.some 0⟩]
      = Except.error ⟨"Failed to generate MCP server"⟩ :=
  ⟨rfl, rfl⟩

/-- C8 witness: concrete instantiation of `cyclic_schema_fatal` — the fatal
half on the cyclic heap, the completing half on a run whose only response
schema is acyclic (the cyclic whole-schema only contributes the warning). -/
theorem cyclic_schema_fatal_witness :
    generateModel cyclicHeap 0 [⟨Option.some 0⟩]
      = Except.error ⟨"Failed to generate MCP server"⟩ ∧
    generateModel cyclicHeap 0 [⟨Option.some 1⟩]
      = Except.ok
          (["Schema contains circular references - manual review recommended"],
           ["\"string\""]) :=
  ⟨(cyclic_schema_fatal cyclicHeap 0 [⟨Option.some 0⟩]).1
      ⟨⟨Option.some 0⟩, List.mem_singleton.mpr rfl, 0, rfl,
       "Converting circular structure to JSON", rfl⟩,
   by
    have h2 := (cyclic_schema_fatal cyclicHeap 0 [⟨Option.some 1⟩]).2
      ["\"string\""] rfl
    rw [h2]
    rfl⟩

end MagicMCP
